import Mathlib

/-!
Verification development for the `github-top-repos` scraper corpus.

The repository contains four small Go programs sharing one design:
exhaustively enumerate GitHub repository-search results past the API's
1000-result window, de-duplicating overlapping result pages, and emit CSV
rows.  We embed the algorithmic content of each program shallowly:

* `MainGo`   — the rate-limited offset-walk scraper (first program of
  `main.go`): `Search` walks cursors at offsets 0, 91, 182, …, < 1000,
  de-duplicates by `DatabaseId`, retries transient errors; `main`
  partitions the query by calendar day and hour and writes 10-field rows.
* `MainGo2`  — the watermark scraper (second program of `main.go`):
  `Search` issues a single sort:updated-asc page with an optional
  `pushed:>=` filter; `IterSearch` drives it, de-duplicating by
  `NameWithOwner`, retrying only secondary-rate-limit errors; `main`
  writes 4-field rows.
* `Part001`  — the metric-windowing scraper (`unnamed/part_001`):
  re-queries with `field:<=lastValue`, de-duplicates by `NameWithOwner`,
  and breaks when the trailing metric value repeats.
* `Part002`  — the day-partitioned offset scraper (`unnamed/part_002`):
  same `Search` as `MainGo` (error strings have trailing periods), daily
  partitions only.
* `Part003`  — the watermark scraper (`unnamed/part_003`): same shape as
  `MainGo2` but with the 9-field repository record and de-duplication by
  `DatabaseId`; `main` writes 10-field rows.

Network transport, authentication, rate limiting (wall-clock time) and
CSV quoting are out of scope; a "server" is modelled as the sequence of
page responses (or error messages) the GraphQL endpoint would return.
-/

/-! ## String helpers (Go standard-library fragments used by the code) -/

/-- Whether list `p` occurs at the start of list `l` (helper for substring
search, Go `strings.Contains` / `strings.Cut`). -/
def startsWithL {α : Type} [DecidableEq α] : List α → List α → Bool
  | [], _ => true
  | _ :: _, [] => false
  | a :: as, b :: bs => a == b && startsWithL as bs

/-- Whether list `p` occurs (contiguously) anywhere inside list `l`. -/
def hasSubL {α : Type} [DecidableEq α] (p : List α) : List α → Bool
  | [] => startsWithL p []
  | a :: t => startsWithL p (a :: t) || hasSubL p t

/-- Go `strings.Contains s sub`: `sub` is a contiguous substring of `s`. -/
def goContains (s sub : String) : Bool :=
  hasSubL sub.toList s.toList

/-- Helper for Go `strings.Cut`: split `l` around the first occurrence of
`sep`, returning the parts before and after it, or `none` if absent. -/
def cutL {α : Type} [DecidableEq α] (sep : List α) : List α → Option (List α × List α)
  | [] => if sep.isEmpty then some ([], []) else none
  | a :: t =>
    if startsWithL sep (a :: t) then some ([], (a :: t).drop sep.length)
    else match cutL sep t with
      | some (pre, post) => some (a :: pre, post)
      | none => none

/-- Go `strings.Cut(s, sep)`: `(before, after, found)`. -/
def goCut (s sep : String) : String × String × Bool :=
  match cutL sep.toList s.toList with
  | some (pre, post) => (String.mk pre, String.mk post, true)
  | none => (s, "", false)

/-- Decimal digits zero-padded to width 2 (Go `%02d`, `"01"`/`"02"`... layout
components). -/
def pad2 (n : Nat) : String :=
  if n < 10 then "0" ++ Nat.repr n else Nat.repr n

/-- Decimal digits zero-padded to width 4 (Go `"2006"` year layout). -/
def pad4 (n : Nat) : String :=
  if n < 10 then "000" ++ Nat.repr n
  else if n < 100 then "00" ++ Nat.repr n
  else if n < 1000 then "0" ++ Nat.repr n
  else Nat.repr n

/-! ## Base64 (Go `encoding/base64.StdEncoding`), used for offset cursors -/

/-- The standard base64 alphabet. -/
def b64Alphabet : List Char :=
  "ABCDEFGHIJKLMNOPQRSTUVWXYZabcdefghijklmnopqrstuvwxyz0123456789+/".toList

/-- The base64 character for a 6-bit value. -/
def b64Char (n : Nat) : Char := b64Alphabet.getD n 'A'

/-- Encode one group of 1–3 bytes as 4 base64 characters with `=` padding. -/
def b64Chunk : List Nat → List Char
  | [a, b, c] =>
    [b64Char (a / 4), b64Char (a % 4 * 16 + b / 16), b64Char (b % 16 * 4 + c / 64),
     b64Char (c % 64)]
  | [a, b] => [b64Char (a / 4), b64Char (a % 4 * 16 + b / 16), b64Char (b % 16 * 4), '=']
  | [a] => [b64Char (a / 4), b64Char (a % 4 * 16), '=', '=']
  | _ => []

/-- Encode a byte list, three bytes per group. -/
def b64Groups : List Nat → List Char
  | [] => []
  | [a] => b64Chunk [a]
  | [a, b] => b64Chunk [a, b]
  | a :: b :: c :: rest => b64Chunk [a, b, c] ++ b64Groups rest

/-- Go `base64.StdEncoding.EncodeToString` restricted to ASCII input, which
is all the code ever encodes (`fmt.Sprintf("cursor:%d", offset)`). -/
def goBase64 (s : String) : String :=
  String.mk (b64Groups (s.toList.map Char.toNat))

/-! ## Timestamps (`githubv4.DateTime` wrapping Go `time.Time`, UTC only) -/

/-- A UTC wall-clock timestamp, the shape of every timestamp this code
touches (GitHub timestamps are UTC with second granularity). -/
structure DateTime where
  year : Nat
  month : Nat
  day : Nat
  hour : Nat
  minute : Nat
  second : Nat
deriving DecidableEq

/-- Go's zero `time.Time`: January 1, year 1, 00:00:00 UTC. -/
def zeroDateTime : DateTime := ⟨1, 1, 1, 0, 0, 0⟩

/-- Go `(time.Time).IsZero`. -/
def DateTime.IsZero (t : DateTime) : Bool := t == zeroDateTime

/-- Go `t.Format(time.RFC3339)` for a UTC time, which coincides with the
layout `"2006-01-02T15:04:05Z"` used by the watermark filter (for a UTC
instant RFC3339 renders the zone as the literal `Z`). -/
def formatTimeZ (t : DateTime) : String :=
  pad4 t.year ++ "-" ++ pad2 t.month ++ "-" ++ pad2 t.day ++ "T" ++
    pad2 t.hour ++ ":" ++ pad2 t.minute ++ ":" ++ pad2 t.second ++ "Z"

/-! ## Generic page / response shapes -/

/-- One decoded search page: the repository nodes and
`PageInfo.HasNextPage`. -/
structure PageG (α : Type) where
  nodes : List α
  hasNextPage : Bool
deriving DecidableEq

/-- One attempt outcome for a single page request: either the error string
of a failed call or a decoded page. -/
inductive AttemptG (α : Type) where
  | err (msg : String)
  | page (p : PageG α)
deriving DecidableEq

/-! ## The shared de-duplication fold

Every variant keeps a `uniq` set and appends an entity to the output only
when its key is fresh (`if _, ok := uniq[key]; ok { continue }`). -/

/-- Process `rs` in order against seen-set `seen`, appending fresh entities
to `acc`; returns the final seen-set and output list. -/
def dedupStep {α κ : Type} [DecidableEq κ] (key : α → κ) :
    List κ → List α → List α → List κ × List α
  | seen, acc, [] => (seen, acc)
  | seen, acc, r :: rs =>
    if key r ∈ seen then dedupStep key seen acc rs
    else dedupStep key (key r :: seen) (acc ++ [r]) rs

theorem dedupStep_seen_mem {α κ : Type} [DecidableEq κ] (key : α → κ) :
    ∀ (rs : List α) (seen : List κ) (acc : List α) (k : κ),
      k ∈ (dedupStep key seen acc rs).1 ↔ k ∈ seen ∨ k ∈ rs.map key := by
  intro rs
  induction rs with
  | nil => intro seen acc k; simp [dedupStep]
  | cons r rs ih =>
    intro seen acc k
    simp only [dedupStep]
    by_cases h : key r ∈ seen
    · rw [if_pos h, ih]
      constructor
      · rintro (hk | hk)
        · exact Or.inl hk
        · exact Or.inr (by simp [hk])
      · rintro (hk | hk)
        · exact Or.inl hk
        · simp only [List.map_cons, List.mem_cons] at hk
          rcases hk with hk | hk
          · exact Or.inl (hk ▸ h)
          · exact Or.inr hk
    · rw [if_neg h, ih]
      simp only [List.mem_cons, List.map_cons]
      tauto

theorem dedupStep_out_mem {α κ : Type} [DecidableEq κ] (key : α → κ) :
    ∀ (rs : List α) (seen : List κ) (acc : List α) (k : κ),
      k ∈ (dedupStep key seen acc rs).2.map key ↔
        k ∈ acc.map key ∨ (k ∈ rs.map key ∧ k ∉ seen) := by
  intro rs
  induction rs with
  | nil => intro seen acc k; simp [dedupStep]
  | cons r rs ih =>
    intro seen acc k
    simp only [dedupStep]
    by_cases h : key r ∈ seen
    · rw [if_pos h, ih]
      simp only [List.map_cons, List.mem_cons]
      constructor
      · rintro (hk | ⟨hk, hns⟩)
        · exact Or.inl hk
        · exact Or.inr ⟨Or.inr hk, hns⟩
      · rintro (hk | ⟨hk | hk, hns⟩)
        · exact Or.inl hk
        · exact absurd (hk ▸ h) hns
        · exact Or.inr ⟨hk, hns⟩
    · rw [if_neg h, ih]
      simp only [List.map_append, List.map_cons, List.map_nil, List.mem_append,
        List.mem_cons, List.mem_singleton, List.not_mem_nil, or_false,
        List.mem_map]
      constructor
      · rintro ((hk | hk) | ⟨hk, hns⟩)
        · exact Or.inl hk
        · exact Or.inr ⟨Or.inl hk, by simp [hk, h]⟩
        · refine Or.inr ⟨Or.inr hk, ?_⟩
          intro hs
          exact hns (by simp [hs])
      · rintro (hk | ⟨hk | hk, hns⟩)
        · exact Or.inl (Or.inl hk)
        · exact Or.inl (Or.inr hk)
        · by_cases hkr : k = key r
          · exact Or.inl (Or.inr hkr)
          · exact Or.inr ⟨hk, by simp [hns, hkr]⟩

theorem dedupStep_nodup {α κ : Type} [DecidableEq κ] (key : α → κ) :
    ∀ (rs : List α) (seen : List κ) (acc : List α),
      (acc.map key).Nodup → (∀ a ∈ acc, key a ∈ seen) →
      ((dedupStep key seen acc rs).2.map key).Nodup ∧
        (∀ a ∈ (dedupStep key seen acc rs).2, key a ∈ (dedupStep key seen acc rs).1) := by
  intro rs
  induction rs with
  | nil => intro seen acc h1 h2; simpa [dedupStep] using ⟨h1, h2⟩
  | cons r rs ih =>
    intro seen acc h1 h2
    simp only [dedupStep]
    by_cases h : key r ∈ seen
    · rw [if_pos h]
      exact ih seen acc h1 h2
    · rw [if_neg h]
      refine ih (key r :: seen) (acc ++ [r]) ?_ ?_
      · simp only [List.map_append, List.map_cons, List.map_nil]
        refine List.Nodup.append h1 (by simp) ?_
        intro k hk hk'
        simp only [List.mem_map] at hk
        simp only [List.map_cons, List.map_nil, List.mem_singleton] at hk'
        obtain ⟨a, ha, rfl⟩ := hk
        exact h (hk' ▸ h2 a ha)
      · intro a ha
        rcases List.mem_append.mp ha with ha | ha
        · exact List.mem_cons_of_mem _ (h2 a ha)
        · simp only [List.mem_singleton] at ha
          simp [ha]

/-! ## Repository records -/

namespace MainGo

/-- `Repository` of `main.go` (also of `part_002` and `part_003`, which
declare the identical struct): the 9-field record. -/
structure Repository where
  ArchivedAt : DateTime
  CreatedAt : DateTime
  DatabaseId : Int
  DiskUsage : Int
  ForkCount : Int
  NameWithOwner : String
  PushedAt : DateTime
  StargazerCount : Int
  UpdatedAt : DateTime
deriving DecidableEq

end MainGo

namespace MainGo2

/-- `Repository` of the second program in `main.go`: only four fields, in
particular no `DatabaseId`. -/
structure Repository where
  NameWithOwner : String
  CreatedAt : DateTime
  PushedAt : DateTime
  StargazerCount : Int
deriving DecidableEq

end MainGo2

namespace Part001

/-- `Repository` of `unnamed/part_001`: display path plus the three
sortable metrics, no identifier. -/
structure Repository where
  NameWithOwner : String
  StargazerCount : Int
  ForkCount : Int
  DiskUsage : Int
deriving DecidableEq

end Part001

/-! ## The offset-walk `Search` (first program of `main.go`; `part_002` is
the same function with slightly different transient-error strings and no
rate limiter).

The Go loop is

    for offset := 0; offset < 1000; offset += 91 { ... }

so it visits offsets `91*k` for `k = 0, …, 10` (`91*10 = 910 < 1000 ≤
1001 = 91*11`); we drive the embedding with the remaining iteration count
`n = 11 - k`.  The server is modelled as, for pagination step `k`, the
finite list of outcomes the endpoint returns for the (identical, retried)
request at that step. -/

/-- The cursor passed for a given offset: `nil` at offset 0, otherwise the
base64 encoding of `fmt.Sprintf("cursor:%d", offset)`. -/
def cursorFor (offset : Nat) : Option String :=
  if offset > 0 then some (goBase64 ("cursor:" ++ Nat.repr offset)) else none

/-- One issued page request of the offset strategy. -/
structure OffsetReq where
  offset : Nat
  cursor : Option String
deriving DecidableEq

/-- Transient-error classification of `main.go`'s `Search` (note: no
trailing periods on the first two strings). -/
def transientMain (m : String) : Bool :=
  goContains m "You have exceeded a secondary rate limit" ||
    goContains m "Something went wrong while executing your query" ||
    goContains m "504 Gateway Timeout"

/-- Transient-error classification of `part_002`'s `Search` (trailing
periods on the first two strings). -/
def transientPart002 (m : String) : Bool :=
  goContains m "You have exceeded a secondary rate limit." ||
    goContains m "Something went wrong while executing your query." ||
    goContains m "504 Gateway Timeout"

/-- The `Retry:` loop around one request: consume attempt outcomes,
sleeping 10 seconds and retrying on each transient error, stopping at the
first fatal error or decoded page.  Returns the number of retry sleeps and
the resolution (`none` when the supplied outcomes ran out while still
retrying, i.e. the `goto Retry` loop is still running). -/
def firstOutcome {α : Type} (transient : String → Bool) :
    List (AttemptG α) → Nat × Option (Except String (PageG α))
  | [] => (0, none)
  | .err m :: rest =>
    if transient m then
      ((firstOutcome transient rest).1 + 1, (firstOutcome transient rest).2)
    else (0, some (.error m))
  | .page p :: _ => (0, some (.ok p))

/-- How a `Search` run ended. -/
inductive SearchOutcome where
  | ok
  | fatal (msg : String)
  | stuck
deriving DecidableEq

/-- Observable trace of one offset-walk `Search` call. -/
structure SearchTrace where
  requests : List OffsetReq
  sleepSeconds : Nat
  repos : List MainGo.Repository
  outcome : SearchOutcome
deriving DecidableEq

/-- The offset-walk loop body of `Search`, with `n` iterations remaining
(`n = 11 - k`, mirroring `offset < 1000; offset += 91`).  On a fatal error
Go does `return nil, err` (discarding the accumulated repos); when the
attempt list for a step runs out while every outcome was transient, the Go
code is still inside `goto Retry`, which we record as `stuck`. -/
def searchLoop (transient : String → Bool)
    (server : Nat → List (AttemptG MainGo.Repository)) :
    Nat → Nat → List Int → List MainGo.Repository → SearchTrace
  | 0, _, _, acc => ⟨[], 0, acc, .ok⟩
  | n + 1, k, seen, acc =>
    let req : OffsetReq := ⟨91 * k, cursorFor (91 * k)⟩
    match firstOutcome transient (server k) with
    | (s, none) => ⟨[req], 10 * s, [], .stuck⟩
    | (s, some (.error m)) => ⟨[req], 10 * s, [], .fatal m⟩
    | (s, some (.ok pg)) =>
      let st := dedupStep (fun r => r.DatabaseId) seen acc pg.nodes
      if pg.hasNextPage then
        let t := searchLoop transient server n (k + 1) st.1 st.2
        ⟨req :: t.requests, 10 * s + t.sleepSeconds, t.repos, t.outcome⟩
      else ⟨[req], 10 * s, st.2, .ok⟩

/-- `Search` of `main.go` / `part_002`: fresh `uniq` seen-set, offsets
0, 91, …, 910. -/
def Search (transient : String → Bool)
    (server : Nat → List (AttemptG MainGo.Repository)) : SearchTrace :=
  searchLoop transient server 11 0 [] []

/-- A server that answers every page request successfully on the first
attempt. -/
def pagesServer (pages : Nat → PageG MainGo.Repository) :
    Nat → List (AttemptG MainGo.Repository) :=
  fun k => [.page (pages k)]

/-- `Search` against an always-successful server. -/
def SearchPages (transient : String → Bool)
    (pages : Nat → PageG MainGo.Repository) : SearchTrace :=
  Search transient (pagesServer pages)

/-! ## The watermark strategy (`part_003` and the second program of
`main.go`)

`Search(ctx, client, query, since)` issues a single 100-result page:

    query += " sort:updated-asc"
    if since != nil { query += " pushed:>=" + since.Format("2006-01-02T15:04:05Z") }

and returns `(repos, !HasNextPage, err)`.  `IterSearch` loops `Search`,
de-duplicating and yielding, retrying transient errors with the same
`since`, and after each batch setting `since` to the last repository's
`PushedAt`.  The two copies differ only in record type and dedup key
(`DatabaseId` in `part_003`, `NameWithOwner` in `main.go`'s second
program), so the loop is embedded once, generically. -/

/-- The fully-assembled query string `Search` sends for a given base query
and watermark. -/
def watermarkQuery (query : String) (since : Option DateTime) : String :=
  query ++ " sort:updated-asc" ++
    (match since with
     | none => ""
     | some t => " pushed:>=" ++ formatTimeZ t)

/-- Transient-error classification of both `IterSearch` retry wrappers:
only the secondary-rate-limit message (with trailing period) is retried. -/
def transientIter (m : String) : Bool :=
  goContains m "You have exceeded a secondary rate limit."

/-- How an `IterSearch` iteration ended. -/
inductive IterOutcome where
  | finished
  | fatal
  | exhausted
deriving DecidableEq

/-- Observable trace of one `IterSearch` iteration: the query strings the
successive `Search` calls were given, the repositories yielded (in order),
the terminal error yielded with the zero record (if any), the total
retry-sleep seconds, and how the loop ended (`exhausted` = the supplied
response list ran out with the loop still going). -/
structure IterTrace (α : Type) where
  requests : List String
  yields : List α
  err : Option String
  sleepSeconds : Nat
  outcome : IterOutcome
deriving DecidableEq

/-- The `IterSearch` loop, generic over the record type and dedup key.
Each list element is the outcome of one `Search` call (one outer-loop
iteration): an error string or a decoded page.  A transient error sleeps
10 seconds and continues with `since` and `uniq` unchanged (retrying the
identical request); a fatal error yields the zero record with the error
and stops; a page is de-duplicated and yielded, the loop stops if it was
the last page, otherwise `since` advances to the last repository's
`PushedAt` when the batch is non-empty. -/
def iterLoop {α κ : Type} [DecidableEq κ] (key : α → κ) (pushedAt : α → DateTime)
    (query : String) :
    List (Except String (PageG α)) → Option DateTime → List κ → IterTrace α
  | [], _, _ => ⟨[], [], none, 0, .exhausted⟩
  | .error m :: rest, since, seen =>
    if transientIter m then
      let t := iterLoop key pushedAt query rest since seen
      ⟨watermarkQuery query since :: t.requests, t.yields, t.err,
        t.sleepSeconds + 10, t.outcome⟩
    else ⟨[watermarkQuery query since], [], some m, 0, .fatal⟩
  | .ok pg :: rest, since, seen =>
    let st := dedupStep key seen [] pg.nodes
    if pg.hasNextPage then
      let since' := match pg.nodes.getLast? with
        | some r => some (pushedAt r)
        | none => since
      let t := iterLoop key pushedAt query rest since' st.1
      ⟨watermarkQuery query since :: t.requests, st.2 ++ t.yields, t.err,
        t.sleepSeconds, t.outcome⟩
    else ⟨[watermarkQuery query since], st.2, none, 0, .finished⟩

namespace Part003

/-- `IterSearch` of `unnamed/part_003`: 9-field records, dedup by
`DatabaseId`, starting with no watermark and an empty seen-set. -/
def IterSearch (query : String)
    (resps : List (Except String (PageG MainGo.Repository))) :
    IterTrace MainGo.Repository :=
  iterLoop (fun r => r.DatabaseId) (fun r => r.PushedAt) query resps none []

/-- `IterSearch` against an all-successful server. -/
def IterPages (query : String) (pages : List (PageG MainGo.Repository)) :
    IterTrace MainGo.Repository :=
  IterSearch query (pages.map .ok)

end Part003

namespace MainGo2

/-- `IterSearch` of the second program in `main.go`: 4-field records,
dedup by `NameWithOwner`. -/
def IterSearch (query : String)
    (resps : List (Except String (PageG Repository))) : IterTrace Repository :=
  iterLoop (fun r => r.NameWithOwner) (fun r => r.PushedAt) query resps none []

/-- `IterSearch` against an all-successful server. -/
def IterPages (query : String) (pages : List (PageG Repository)) :
    IterTrace Repository :=
  IterSearch query (pages.map .ok)

end MainGo2

/-- The pages an iteration actually processes: everything up to and
including the first page that reports no next page. -/
def processedPages {α : Type} : List (PageG α) → List (PageG α)
  | [] => []
  | p :: rest => p :: (if p.hasNextPage then processedPages rest else [])

/-- The nodes of the processed pages, in arrival order. -/
def processedNodes {α : Type} (pages : List (PageG α)) : List α :=
  (processedPages pages).flatMap (fun p => p.nodes)

/-! ## The metric-windowing loop of `unnamed/part_001`

`main` repeatedly runs `RepositorySearch` with `sort:<field>` plus either
`field:>0` (first window) or `field:<=lastValue`, prints de-duplicated
rows, and breaks when the batch is empty or when the trailing value of the
batch equals `lastValue` (the non-progress guard). -/

namespace Part001

/-- The sortable field chosen on the command line. -/
inductive Field where
  | stars
  | forks
  | size
deriving DecidableEq

/-- The CLI name of a field (`os.Args[1]`). -/
def Field.name : Field → String
  | .stars => "stars"
  | .forks => "forks"
  | .size => "size"

/-- The `switch field` extracting the sort metric from a record. -/
def Field.value : Field → Repository → Int
  | .stars, r => r.StargazerCount
  | .forks, r => r.ForkCount
  | .size, r => r.DiskUsage

/-- The query assembled for one window. -/
def windowQuery (base : String) (f : Field) (lastValue : Int) : String :=
  base ++ "sort:" ++ f.name ++
    (if lastValue = 0 then " " ++ f.name ++ ":>0"
     else " " ++ f.name ++ ":<=" ++ Int.repr lastValue)

/-- The per-batch print loop: `value` is (re)assigned for every record,
then fresh display paths are recorded and printed.  Returns the printed
rows, the final seen-set, and the final `value`. -/
def printBatch (f : Field) :
    List String → Int → List Repository → List (String × Int) × List String × Int
  | uniq, value, [] => ([], uniq, value)
  | uniq, _, r :: rs =>
    let v := f.value r
    if r.NameWithOwner ∈ uniq then printBatch f uniq v rs
    else
      let t := printBatch f (r.NameWithOwner :: uniq) v rs
      ((r.NameWithOwner, v) :: t.1, t.2)

/-- How the `part_001` main loop ended. -/
inductive P1Outcome where
  | emptyBatch
  | noProgress
  | exhausted
deriving DecidableEq

/-- Observable trace of the `part_001` main loop. -/
structure P1Trace where
  queries : List String
  printed : List (String × Int)
  batchesUsed : Nat
  outcome : P1Outcome
deriving DecidableEq

/-- The `for {}` loop of `part_001`'s `main`, driven by the successive
batches `RepositorySearch` returns.  It breaks on an empty batch, and —
the non-progress guard — when the trailing value of the batch equals the
`lastValue` that formed the window. -/
def mainLoop (base : String) (f : Field) :
    List (List Repository) → Int → List String → P1Trace
  | [], _, _ => ⟨[], [], 0, .exhausted⟩
  | batch :: rest, lastValue, uniq =>
    let q := windowQuery base f lastValue
    if batch.isEmpty then ⟨[q], [], 1, .emptyBatch⟩
    else
      let t := printBatch f uniq lastValue batch
      if t.2.2 = lastValue then ⟨[q], t.1, 1, .noProgress⟩
      else
        let rec' := mainLoop base f rest t.2.2 t.2.1
        ⟨q :: rec'.queries, t.1 ++ rec'.printed, rec'.batchesUsed + 1, rec'.outcome⟩

/-- The full run: `lastValue` starts at 0 with an empty seen-set. -/
def run (base : String) (f : Field) (batches : List (List Repository)) : P1Trace :=
  mainLoop base f batches 0 []

end Part001

/-! ## CSV rows -/

namespace MainGo

/-- `csvDateTime` of `main.go` / `part_002` / `part_003`: empty string for
the zero time, RFC3339 otherwise. -/
def csvDateTime (dt : DateTime) : String :=
  if dt.IsZero then "" else formatTimeZ dt

/-- The 10-field row written for each repository by `main.go`'s first
program (and, identically, by `part_002` and `part_003`): owner and name
from `strings.Cut(NameWithOwner, "/")`, then id, stars, forks, size, and
the four timestamps through `csvDateTime`. -/
def csvRow (r : Repository) : List String :=
  [(goCut r.NameWithOwner "/").1,
   (goCut r.NameWithOwner "/").2.1,
   Int.repr r.DatabaseId,
   Int.repr r.StargazerCount,
   Int.repr r.ForkCount,
   Int.repr r.DiskUsage,
   csvDateTime r.CreatedAt,
   csvDateTime r.UpdatedAt,
   csvDateTime r.PushedAt,
   csvDateTime r.ArchivedAt]

end MainGo

namespace MainGo2

/-- The 4-field row written by the second program of `main.go`: the raw
`NameWithOwner` (not split), the star count, and the two timestamps
formatted with `Time.Format(time.RFC3339)` directly — with no zero-time
check. -/
def csvRow (r : Repository) : List String :=
  [r.NameWithOwner,
   Int.repr r.StargazerCount,
   formatTimeZ r.CreatedAt,
   formatTimeZ r.PushedAt]

end MainGo2

/-! ## Calendar dates and the date-range partitioner

`main.go` (first program) and `part_002` parse `--start`/`--end` as
`2006-01-02` dates, reject `start.After(end)`, and loop

    for day := startTime; !day.After(endTime); day = day.AddDate(0, 0, 1)

issuing one `Search` per hour of each day (`main.go`) or one per day
(`part_002`) with a `created:` range filter.  We model a calendar day as a
Gregorian date triple; `AddDate(0,0,1)` on a valid UTC midnight date is
exactly the successor date, and `time.After` on such instants is
lexicographic comparison of the triples. -/

/-- A Gregorian calendar date. -/
structure Date where
  year : Nat
  month : Nat
  day : Nat
deriving DecidableEq

/-- Gregorian leap-year rule (as in Go's `time` package). -/
def isLeap (y : Nat) : Bool :=
  (y % 4 == 0 && y % 100 != 0) || y % 400 == 0

/-- Days in a month (0 outside 1–12). -/
def daysInMonth (y m : Nat) : Nat :=
  match m with
  | 1 => 31
  | 2 => if isLeap y then 29 else 28
  | 3 => 31
  | 4 => 30
  | 5 => 31
  | 6 => 30
  | 7 => 31
  | 8 => 31
  | 9 => 30
  | 10 => 31
  | 11 => 30
  | 12 => 31
  | _ => 0

/-- A well-formed calendar date. -/
def validDate (d : Date) : Prop :=
  1 ≤ d.month ∧ d.month ≤ 12 ∧ 1 ≤ d.day ∧ d.day ≤ daysInMonth d.year d.month

instance (d : Date) : Decidable (validDate d) := by
  unfold validDate; infer_instance

/-- Go `day.AddDate(0, 0, 1)` on a valid date: the next calendar day. -/
def succDate (d : Date) : Date :=
  if d.day < daysInMonth d.year d.month then ⟨d.year, d.month, d.day + 1⟩
  else if d.month < 12 then ⟨d.year, d.month + 1, 1⟩
  else ⟨d.year + 1, 1, 1⟩

/-- Go `a.After(b)` for the midnight instants of two (valid) dates:
lexicographic comparison. -/
def dateAfter (a b : Date) : Bool :=
  decide (b.year < a.year ∨ (a.year = b.year ∧
    (b.month < a.month ∨ (a.month = b.month ∧ b.day < a.day))))

/-- Termination measure for walking days: strictly decreases along
`succDate` while `¬ dateAfter s e`. -/
def dMeasure (s e : Date) : Nat :=
  (e.year + 1 - s.year) * 1000 + (13 - s.month) * 40 + (33 - s.day)

theorem daysInMonth_le (y m : Nat) : daysInMonth y m ≤ 31 := by
  unfold daysInMonth
  split <;> first | omega | (split <;> omega)

theorem daysInMonth_pos (y m : Nat) (h1 : 1 ≤ m) (h2 : m ≤ 12) :
    1 ≤ daysInMonth y m := by
  have hm : m = 1 ∨ m = 2 ∨ m = 3 ∨ m = 4 ∨ m = 5 ∨ m = 6 ∨ m = 7 ∨ m = 8 ∨
      m = 9 ∨ m = 10 ∨ m = 11 ∨ m = 12 := by omega
  rcases hm with rfl | rfl | rfl | rfl | rfl | rfl | rfl | rfl | rfl | rfl | rfl | rfl <;>
    simp only [daysInMonth] <;> first | omega | (split <;> omega)

theorem dMeasure_succ_lt (s e : Date) (h : dateAfter s e = false) :
    dMeasure (succDate s) e < dMeasure s e := by
  have hya : s.year ≤ e.year := by
    simp only [dateAfter, decide_eq_false_iff_not] at h
    omega
  have h31 := daysInMonth_le s.year s.month
  unfold succDate dMeasure
  split
  · simp only
    omega
  · split
    · simp only
      omega
    · simp only
      omega

/-- The list of days `startTime, startTime+1d, …, endTime` the partitioner
loops over (empty when `start` is after `end`). -/
def dayRange (s e : Date) : List Date :=
  if dateAfter s e then [] else s :: dayRange (succDate s) e
termination_by dMeasure s e
decreasing_by
  rename_i h
  exact dMeasure_succ_lt s e (by simpa using h)

/-! Rata-die style day numbering, used to give each partition's
`created:` filter its semantics as an interval of absolute seconds. -/

/-- Days in a year. -/
def daysInYear (y : Nat) : Nat := if isLeap y then 366 else 365

/-- Days in all years before `y` (relative to an arbitrary fixed epoch;
only differences matter). -/
def daysBeforeYear : Nat → Nat
  | 0 => 0
  | y + 1 => daysBeforeYear y + daysInYear y

/-- Days in the months of year `y` strictly before month `m`. -/
def daysBeforeMonth (y : Nat) : Nat → Nat
  | 0 => 0
  | m + 1 => daysBeforeMonth y m + daysInMonth y m

/-- Absolute day number of a date. -/
def rataDie (d : Date) : Nat :=
  daysBeforeYear d.year + daysBeforeMonth d.year d.month + (d.day - 1)

/-- Go layout `"2006-01-02"` of a date. -/
def fmtDate (d : Date) : String :=
  pad4 d.year ++ "-" ++ pad2 d.month ++ "-" ++ pad2 d.day

namespace MainGo

/-- The sub-query `main.go` issues for one day and one hour:
`fmt.Sprintf("%s created:%sT%02d:00:00Z..%sT%02d:59:59Z", …)`. -/
def hourQuery (base : String) (d : Date) (h : Nat) : String :=
  base ++ " created:" ++ fmtDate d ++ "T" ++ pad2 h ++ ":00:00Z.." ++
    fmtDate d ++ "T" ++ pad2 h ++ ":59:59Z"

/-- The `(day, hour)` partitions of the nested day/hour loops, in issue
order. -/
def hourParts (s e : Date) : List (Date × Nat) :=
  (dayRange s e).flatMap (fun d => (List.range 24).map (fun h => (d, h)))

/-- The sub-queries of `main.go`'s partitioner, one per day and hour. -/
def hourQueries (base : String) (s e : Date) : List String :=
  (hourParts s e).map (fun p => hourQuery base p.1 p.2)

/-- The absolute-seconds interval (inclusive ends) covered by one hour
partition's `created:` filter: from `dayThh:00:00Z` to `dayThh:59:59Z`. -/
def hourInterval (p : Date × Nat) : Nat × Nat :=
  (86400 * rataDie p.1 + 3600 * p.2, 86400 * rataDie p.1 + 3600 * p.2 + 3599)

/-- The interval semantics of all hour partitions, in issue order. -/
def hourIntervals (s e : Date) : List (Nat × Nat) :=
  (hourParts s e).map hourInterval

/-- The repositories one `Search` call yields against an all-successful
server (each invocation starts from a fresh, empty seen-set). -/
def searchRepos (pages : Nat → PageG Repository) : List Repository :=
  (SearchPages transientMain pages).repos

/-- The rows the partitioned `main` emits: for each day and each hour, an
independent `Search` invocation whose repositories are written as CSV
rows.  The server is indexed by the sub-query string it is answering. -/
def mainRows (base : String) (server : String → Nat → PageG Repository)
    (s e : Date) : List (List String) :=
  (dayRange s e).flatMap (fun day =>
    (List.range 24).flatMap (fun h =>
      (searchRepos (server (hourQuery base day h))).map csvRow))

end MainGo

namespace Part002

/-- The sub-query `part_002` issues for one day:
`fmt.Sprintf("%s created:%sT00:00:00Z..%sT23:59:59Z", …)`. -/
def dayQuery (base : String) (d : Date) : String :=
  base ++ " created:" ++ fmtDate d ++ "T00:00:00Z.." ++ fmtDate d ++ "T23:59:59Z"

/-- The sub-queries of `part_002`'s partitioner, one per day. -/
def dayQueries (base : String) (s e : Date) : List String :=
  (dayRange s e).map (dayQuery base)

/-- The absolute-seconds interval covered by one day partition's
`created:` filter. -/
def dayInterval (d : Date) : Nat × Nat :=
  (86400 * rataDie d, 86400 * rataDie d + 86399)

/-- The interval semantics of all day partitions, in issue order. -/
def dayIntervals (s e : Date) : List (Nat × Nat) :=
  (dayRange s e).map dayInterval

end Part002

theorem daysBeforeMonth_year (y : Nat) :
    daysBeforeMonth y 12 + daysInMonth y 12 = daysInYear y := by
  simp only [daysBeforeMonth, daysInMonth, daysInYear]
  cases h : isLeap y <;> simp [h]

theorem validDate_bounds {d : Date} (h : validDate d) :
    1 ≤ d.month ∧ d.month ≤ 12 ∧ 1 ≤ d.day ∧ d.day ≤ daysInMonth d.year d.month := h

/-- On valid dates, `succDate` is valid and advances the absolute day
number by exactly one. -/
theorem rataDie_succ {d : Date} (h : validDate d) :
    rataDie (succDate d) = rataDie d + 1 ∧ validDate (succDate d) := by
  obtain ⟨y, m, dd⟩ := d
  obtain ⟨hm1, hm2, hd1, hd2⟩ := h
  dsimp only at hm1 hm2 hd1 hd2
  have hpos : 1 ≤ daysInMonth y m := daysInMonth_pos _ _ hm1 hm2
  unfold succDate
  dsimp only
  split
  · rename_i hlt
    refine ⟨?_, ?_⟩
    · unfold rataDie
      dsimp only
      omega
    · unfold validDate
      dsimp only
      exact ⟨hm1, hm2, by omega, by omega⟩
  · split
    · rename_i hnlt hm12
      have hpos' : 1 ≤ daysInMonth y (m + 1) :=
        daysInMonth_pos _ _ (by omega) (by omega)
      have hstep : daysBeforeMonth y (m + 1) =
          daysBeforeMonth y m + daysInMonth y m := rfl
      refine ⟨?_, ?_⟩
      · unfold rataDie
        dsimp only
        omega
      · unfold validDate
        dsimp only
        exact ⟨by omega, by omega, le_refl 1, hpos'⟩
    · rename_i hnlt hnm
      have hm12 : m = 12 := by omega
      subst hm12
      have h31 : daysInMonth y 12 = 31 := rfl
      have hy1 : daysBeforeYear (y + 1) = daysBeforeYear y + daysInYear y := rfl
      have hbm1 : daysBeforeMonth (y + 1) 1 = 0 := by
        show daysBeforeMonth (y + 1) 0 + daysInMonth (y + 1) 0 = 0
        rfl
      have h3 := daysBeforeMonth_year y
      have h31' : daysInMonth (y + 1) 1 = 31 := rfl
      refine ⟨?_, ?_⟩
      · unfold rataDie
        dsimp only
        omega
      · unfold validDate
        dsimp only
        exact ⟨le_refl 1, by omega, le_refl 1, by omega⟩

/-- Discreteness: a valid date that is not after `e` while its successor
is after `e` must be `e` itself. -/
theorem succ_squeeze {s e : Date} (hs : validDate s) (he : validDate e)
    (h1 : dateAfter s e = false) (h2 : dateAfter (succDate s) e = true) :
    e = s := by
  obtain ⟨sy, sm, sd⟩ := s
  obtain ⟨ey, em, ed⟩ := e
  obtain ⟨hsm1, hsm2, hsd1, hsd2⟩ := hs
  obtain ⟨hem1, hem2, hed1, hed2⟩ := he
  dsimp only at hsm1 hsm2 hsd1 hsd2 hem1 hem2 hed1 hed2
  simp only [dateAfter, decide_eq_false_iff_not, decide_eq_true_eq] at h1
  unfold succDate at h2
  dsimp only at h2
  split at h2
  · rename_i hlt
    simp only [dateAfter, decide_eq_true_eq] at h2
    simp only [Date.mk.injEq]
    omega
  · split at h2
    · rename_i hnlt hmlt
      simp only [dateAfter, decide_eq_true_eq] at h2
      have hye : ey = sy := by omega
      have hme : em = sm := by omega
      have hde : daysInMonth ey em = daysInMonth sy sm := by rw [hye, hme]
      simp only [Date.mk.injEq]
      omega
    · rename_i hnlt hnm
      simp only [dateAfter, decide_eq_true_eq] at h2
      have hsm12 : sm = 12 := by omega
      have hye : ey = sy := by omega
      have hme : em = 12 := by omega
      have hde : daysInMonth ey em = daysInMonth sy sm := by
        rw [hye, hme, hsm12]
      have h31 : daysInMonth sy sm = 31 := by rw [hsm12]; rfl
      simp only [Date.mk.injEq]
      omega

theorem dayRange_eq (s e : Date) :
    dayRange s e = if dateAfter s e then [] else s :: dayRange (succDate s) e := by
  rw [dayRange]

theorem dayRange_spec_aux :
    ∀ (n : Nat) (s e : Date), dMeasure s e ≤ n → validDate s → validDate e →
      dateAfter s e = false →
      dayRange s e ≠ [] ∧ (dayRange s e).head? = some s ∧
        (dayRange s e).getLast? = some e ∧ (∀ d ∈ dayRange s e, validDate d) ∧
        List.Chain' (fun a b => b = succDate a) (dayRange s e) ∧
        (dayRange s e).length = rataDie e + 1 - rataDie s ∧
        rataDie s ≤ rataDie e := by
  intro n
  induction n with
  | zero =>
    intro s e hn hs he hse
    exfalso
    have hy : s.year ≤ e.year := by
      simp only [dateAfter, decide_eq_false_iff_not] at hse
      omega
    unfold dMeasure at hn
    omega
  | succ n ih =>
    intro s e hn hs he hse
    have hunf : dayRange s e = s :: dayRange (succDate s) e := by
      rw [dayRange_eq, if_neg (by simp [hse])]
    obtain ⟨hrd, hvs'⟩ := rataDie_succ hs
    by_cases h2 : dateAfter (succDate s) e = true
    · have hes : e = s := succ_squeeze hs he hse h2
      have hnil : dayRange (succDate s) e = [] := by
        rw [dayRange_eq, if_pos h2]
      rw [hunf, hnil]
      subst hes
      refine ⟨by simp, by simp, by simp, ?_, by simp, by simp, le_refl _⟩
      intro d hd
      simp only [List.mem_singleton] at hd
      exact hd ▸ hs
    · have h2' : dateAfter (succDate s) e = false := by
        cases h : dateAfter (succDate s) e
        · rfl
        · exact absurd h h2
      have hlt := dMeasure_succ_lt s e hse
      obtain ⟨tne, thead, tlast, tvalid, tchain, tlen, trd⟩ :=
        ih (succDate s) e (by omega) hvs' he h2'
      obtain ⟨th, tt, htt⟩ := List.exists_cons_of_ne_nil tne
      rw [hunf]
      refine ⟨by simp, by simp, ?_, ?_, ?_, ?_, by omega⟩
      · rw [htt, List.getLast?_cons_cons, ← htt]
        exact tlast
      · intro d hd
        rcases List.mem_cons.mp hd with rfl | hd
        · exact hs
        · exact tvalid d hd
      · rw [List.chain'_cons']
        refine ⟨?_, tchain⟩
        intro y hy
        rw [thead, Option.mem_some_iff] at hy
        exact hy.symm
      · simp only [List.length_cons]
        omega

/-- The day loop `for day := start; !day.After(end); day = day.AddDate(0,0,1)`
visits exactly the consecutive calendar days from `start` to `end`. -/
theorem dayRange_spec {s e : Date} (hs : validDate s) (he : validDate e)
    (hse : dateAfter s e = false) :
    dayRange s e ≠ [] ∧ (dayRange s e).head? = some s ∧
      (dayRange s e).getLast? = some e ∧ (∀ d ∈ dayRange s e, validDate d) ∧
      List.Chain' (fun a b => b = succDate a) (dayRange s e) ∧
      (dayRange s e).length = rataDie e + 1 - rataDie s ∧
      rataDie s ≤ rataDie e :=
  dayRange_spec_aux (dMeasure s e) s e (le_refl _) hs he hse

/-- Gluing per-day interval blocks along a chain of consecutive valid days:
the concatenation is gap-free and overlap-free (each interval starts right
after the previous one ends), starts at the first day's midnight and ends
at the last day's final second. -/
theorem flatBlocks_spec (B : Date → List (Nat × Nat))
    (hne : ∀ d, B d ≠ [])
    (hchain : ∀ d, List.Chain' (fun a b => b.1 = a.2 + 1) (B d))
    (hhead : ∀ d, (B d).head?.map Prod.fst = some (86400 * rataDie d))
    (hlast : ∀ d, (B d).getLast?.map Prod.snd = some (86400 * rataDie d + 86399)) :
    ∀ (ds : List Date), (∀ d ∈ ds, validDate d) →
      List.Chain' (fun a b => b = succDate a) ds →
      List.Chain' (fun a b => b.1 = a.2 + 1) (ds.flatMap B) ∧
        (ds.flatMap B).head?.map Prod.fst =
          ds.head?.map (fun d => 86400 * rataDie d) ∧
        (ds.flatMap B).getLast?.map Prod.snd =
          ds.getLast?.map (fun d => 86400 * rataDie d + 86399) := by
  intro ds
  induction ds with
  | nil => intro _ _; simp
  | cons d rest ih =>
    intro hvalid hchn
    have hvd : validDate d := hvalid d (List.mem_cons_self d rest)
    obtain ⟨ichain, ihead, ilast⟩ :=
      ih (fun x hx => hvalid x (List.mem_cons_of_mem d hx)) hchn.tail
    have hflat : (d :: rest).flatMap B = B d ++ rest.flatMap B := by
      simp [List.flatMap_cons]
    rw [hflat]
    refine ⟨?_, ?_, ?_⟩
    · rw [List.chain'_append]
      refine ⟨hchain d, ichain, ?_⟩
      intro x hx y hy
      cases rest with
      | nil => simp at hy
      | cons r1 rt =>
        have hr1 : r1 = succDate d := by
          have := List.chain'_cons.mp hchn
          exact this.1
        have hy1 : y.1 = 86400 * rataDie r1 := by
          have hh : ((r1 :: rt).flatMap B).head?.map Prod.fst =
              some (86400 * rataDie r1) := by simpa using ihead
          rw [Option.mem_def] at hy
          rw [hy] at hh
          simpa using hh
        have hx2 : x.2 = 86400 * rataDie d + 86399 := by
          have hl := hlast d
          rw [Option.mem_def] at hx
          rw [hx] at hl
          simpa using hl
        have hrd : rataDie r1 = rataDie d + 1 := by
          rw [hr1]
          exact (rataDie_succ hvd).1
        rw [hy1, hx2, hrd]
        ring
    · obtain ⟨b0, bt, hb⟩ := List.exists_cons_of_ne_nil (hne d)
      rw [hb]
      have hh := hhead d
      rw [hb] at hh
      simpa using hh
    · cases rest with
      | nil =>
        simp only [List.flatMap_nil, List.append_nil]
        simpa using hlast d
      | cons r1 rt =>
        have hfne : ((r1 :: rt).flatMap B) ≠ [] := by
          simp only [List.flatMap_cons]
          intro hcon
          exact hne r1 (List.append_eq_nil.mp hcon).1
        rw [List.getLast?_append_of_ne_nil _ hfne]
        simpa using ilast

/-- The 24 hour-intervals of one day, as a block. -/
def hourBlock (d : Date) : List (Nat × Nat) :=
  (List.range 24).map (fun h => MainGo.hourInterval (d, h))

theorem hourIntervals_eq_flat (s e : Date) :
    MainGo.hourIntervals s e = (dayRange s e).flatMap hourBlock := by
  unfold MainGo.hourIntervals MainGo.hourParts hourBlock
  rw [List.map_flatMap]
  simp only [List.map_map]
  rfl

theorem hourBlock_ne_nil (d : Date) : hourBlock d ≠ [] := by
  simp [hourBlock, List.range_eq_nil]

theorem hourBlock_chain (d : Date) :
    List.Chain' (fun a b => b.1 = a.2 + 1) (hourBlock d) := by
  unfold hourBlock
  rw [List.chain'_map]
  have h24 : (24 : Nat) = 23 + 1 := rfl
  rw [h24, List.chain'_range_succ]
  intro m _
  simp only [MainGo.hourInterval]
  omega

theorem hourBlock_head (d : Date) :
    (hourBlock d).head?.map Prod.fst = some (86400 * rataDie d) := by
  unfold hourBlock
  rw [List.head?_map]
  have : (List.range 24).head? = some 0 := by decide
  rw [this]
  simp [MainGo.hourInterval]

theorem hourBlock_last (d : Date) :
    (hourBlock d).getLast?.map Prod.snd = some (86400 * rataDie d + 86399) := by
  unfold hourBlock
  rw [List.getLast?_map]
  have : (List.range 24).getLast? = some 23 := by decide
  rw [this]
  simp [MainGo.hourInterval]

/-- The one-interval block of a day in the daily partitioner. -/
def dayBlock (d : Date) : List (Nat × Nat) := [Part002.dayInterval d]

theorem dayIntervals_eq_flat (s e : Date) :
    Part002.dayIntervals s e = (dayRange s e).flatMap dayBlock := by
  unfold Part002.dayIntervals dayBlock
  induction dayRange s e with
  | nil => rfl
  | cons d t iht => simp [iht]

theorem length_flat24 {α β : Type} (g : α → Nat → β) :
    ∀ ds : List α,
      (ds.flatMap (fun d => (List.range 24).map (fun h => g d h))).length =
        24 * ds.length := by
  intro ds
  induction ds with
  | nil => rfl
  | cons d t iht => simp [iht]; ring

/-! ## Properties of the offset-walk `Search` -/

theorem firstOutcome_page {α : Type} (tr : String → Bool) (p : PageG α)
    (rest : List (AttemptG α)) :
    firstOutcome tr (.page p :: rest) = (0, some (.ok p)) := rfl

/-- Spec-side (from the claim): the number of page requests the
overlapping-offset walk makes against an all-successful server — one for
each leading page that still reports a next page (the walk caps at ten of
those) plus the final request. -/
def specStopCount (pages : Nat → PageG MainGo.Repository) : Nat :=
  ((List.range 10).takeWhile (fun k => (pages k).hasNextPage)).length + 1

/-- Spec-side (from the claim): the requests the overlapping-offset walk
should issue — offsets 0, 91, 182, …, strictly below 1000, no cursor at
offset 0, the base64 `cursor:<offset>` token at positive offsets, stopping
early at the first page with no next page. -/
def specOffsetRequests (pages : Nat → PageG MainGo.Repository) : List OffsetReq :=
  (List.range (specStopCount pages)).map (fun k => ⟨91 * k, cursorFor (91 * k)⟩)

theorem searchLoop_pages_requests (tr : String → Bool)
    (pages : Nat → PageG MainGo.Repository) :
    ∀ (n k : Nat) (seen : List Int) (acc : List MainGo.Repository),
      (searchLoop tr (pagesServer pages) n k seen acc).requests =
        (List.range' k
            (min n
              (((List.range' k (n - 1)).takeWhile
                  (fun j => (pages j).hasNextPage)).length + 1))).map
          (fun j => ⟨91 * j, cursorFor (91 * j)⟩) := by
  intro n
  induction n with
  | zero => intro k seen acc; simp [searchLoop]
  | succ n ih =>
    intro k seen acc
    simp only [searchLoop, pagesServer, firstOutcome_page]
    cases hnx : (pages k).hasNextPage
    · rw [if_neg (by simp [hnx])]
      have htw : ((List.range' k (n + 1 - 1)).takeWhile
          (fun j => (pages j).hasNextPage)).length = 0 := by
        cases n with
        | zero => simp
        | succ m =>
          have hm : m + 1 + 1 - 1 = m + 1 := rfl
          rw [hm, List.range'_succ]
          simp [List.takeWhile_cons, hnx]
      rw [htw]
      have h1 : min (n + 1) (0 + 1) = 1 := by omega
      rw [h1]
      simp [List.range'_succ]
    · rw [if_pos (by simp [hnx])]
      cases n with
      | zero =>
        simp only [searchLoop, List.range'_succ]
        have : min 1 (((List.range' k 0).takeWhile
            (fun j => (pages j).hasNextPage)).length + 1) = 1 := by
          simp
        rw [this]
        simp [List.range'_succ]
      | succ m =>
        rw [ih (k + 1) _ _]
        have htw : ((List.range' k (m + 1)).takeWhile
            (fun j => (pages j).hasNextPage)).length =
            ((List.range' (k + 1) m).takeWhile
              (fun j => (pages j).hasNextPage)).length + 1 := by
          rw [List.range'_succ]
          simp [List.takeWhile_cons, hnx]
        have hm2 : m + 1 + 1 - 1 = m + 1 := rfl
        rw [hm2, htw]
        set w := ((List.range' (k + 1) m).takeWhile
          (fun j => (pages j).hasNextPage)).length with hw
        have hmin : min (m + 1 + 1) (w + 1 + 1) = min (m + 1) (w + 1) + 1 := by
          omega
        rw [hmin, List.range'_succ, List.map_cons]
        have hm1 : m + 1 - 1 = m := rfl
        rw [hm1]

/-- The requests of an all-successful offset walk are exactly the
spec-described ones. -/
theorem searchPages_requests (tr : String → Bool)
    (pages : Nat → PageG MainGo.Repository) :
    (SearchPages tr pages).requests = specOffsetRequests pages := by
  unfold SearchPages Search specOffsetRequests specStopCount
  rw [searchLoop_pages_requests]
  have hle : ((List.range' 0 10).takeWhile
      (fun j => (pages j).hasNextPage)).length ≤ 10 := by
    calc ((List.range' 0 10).takeWhile (fun j => (pages j).hasNextPage)).length
        ≤ (List.range' 0 10).length := (List.takeWhile_sublist _).length_le
      _ = 10 := by simp
  have h10 : (11 : Nat) - 1 = 10 := rfl
  rw [h10]
  have hr : List.range' 0 10 = List.range 10 := by
    rw [List.range_eq_range']
  have hr2 : ∀ c : Nat, List.range' 0 c = List.range c := by
    intro c; rw [List.range_eq_range']
  rw [hr]
  have hmin : min 11
      (((List.range 10).takeWhile (fun j => (pages j).hasNextPage)).length + 1) =
      ((List.range 10).takeWhile (fun j => (pages j).hasNextPage)).length + 1 := by
    rw [hr] at hle
    omega
  rw [hmin, hr2]

theorem searchLoop_requests_len (tr : String → Bool)
    (server : Nat → List (AttemptG MainGo.Repository)) :
    ∀ (n k : Nat) (seen : List Int) (acc : List MainGo.Repository),
      (searchLoop tr server n k seen acc).requests.length ≤ n := by
  intro n
  induction n with
  | zero => intro k seen acc; simp [searchLoop]
  | succ n ih =>
    intro k seen acc
    simp only [searchLoop]
    rcases h : firstOutcome tr (server k) with ⟨s, o⟩
    rcases o with _ | v
    · simp
    · rcases v with m | pg
      · simp
      · simp only
        split
        · simp only [List.length_cons]
          exact Nat.succ_le_succ (ih (k + 1) _ _)
        · simp

theorem searchLoop_repos_nodup (tr : String → Bool)
    (server : Nat → List (AttemptG MainGo.Repository)) :
    ∀ (n k : Nat) (seen : List Int) (acc : List MainGo.Repository),
      (acc.map (fun r => r.DatabaseId)).Nodup →
      (∀ a ∈ acc, a.DatabaseId ∈ seen) →
      ((searchLoop tr server n k seen acc).repos.map (fun r => r.DatabaseId)).Nodup := by
  intro n
  induction n with
  | zero => intro k seen acc h1 _; simpa [searchLoop] using h1
  | succ n ih =>
    intro k seen acc h1 h2
    simp only [searchLoop]
    rcases h : firstOutcome tr (server k) with ⟨s, o⟩
    rcases o with _ | v
    · simp
    · rcases v with m | pg
      · simp
      · simp only
        obtain ⟨hnd, hsub⟩ :=
          dedupStep_nodup (fun r => r.DatabaseId) pg.nodes seen acc h1 h2
        split
        · exact ih (k + 1) _ _ hnd hsub
        · simpa using hnd

/-- The repositories `Search` returns (fresh seen-set, empty accumulator). -/
theorem search_repos_nodup (tr : String → Bool)
    (server : Nat → List (AttemptG MainGo.Repository)) :
    ((Search tr server).repos.map (fun r => r.DatabaseId)).Nodup :=
  searchLoop_repos_nodup tr server 11 0 [] [] (by simp) (by simp)

/-! ## Properties of the watermark `IterSearch` loop -/

theorem processedPages_cons {α : Type} (p : PageG α) (rest : List (PageG α)) :
    processedPages (p :: rest) =
      p :: (if p.hasNextPage then processedPages rest else []) := rfl

theorem processedNodes_cons {α : Type} (p : PageG α) (rest : List (PageG α)) :
    processedNodes (p :: rest) =
      p.nodes ++ (if p.hasNextPage then processedNodes rest else []) := by
  unfold processedNodes
  rw [processedPages_cons, List.flatMap_cons]
  cases p.hasNextPage <;> simp

/-- Spec-side (from the claim): the watermark in effect for request `i` of
the watermark strategy — the push timestamp of the last entity of the last
non-empty page among the first `i` pages, or `none` if all were empty. -/
def specWatermark {α : Type} (pushedAt : α → DateTime) (pages : List (PageG α))
    (i : Nat) : Option DateTime :=
  (pages.take i).foldl
    (fun since p =>
      match p.nodes.getLast? with
      | some r => some (pushedAt r)
      | none => since) none

theorem iterLoop_pages_requests_aux {α κ : Type} [DecidableEq κ] (key : α → κ)
    (pushedAt : α → DateTime) (q : String) :
    ∀ (pages : List (PageG α)) (since : Option DateTime) (seen : List κ),
      (iterLoop key pushedAt q (pages.map .ok) since seen).requests =
        (List.range (processedPages pages).length).map
          (fun i => watermarkQuery q
            ((pages.take i).foldl
              (fun s p =>
                match p.nodes.getLast? with
                | some r => some (pushedAt r)
                | none => s) since)) := by
  intro pages
  induction pages with
  | nil => intro since seen; simp [iterLoop, processedPages]
  | cons p rest ih =>
    intro since seen
    simp only [List.map_cons, iterLoop]
    cases hnx : p.hasNextPage
    · rw [if_neg (by simp)]
      have hr1 : List.range 1 = [0] := rfl
      simp [processedPages_cons, hnx, hr1]
    · rw [if_pos (by simp)]
      simp only [processedPages_cons, hnx, if_true, List.length_cons]
      rw [List.range_succ_eq_map, List.map_cons, ih, List.map_map]
      refine congrArg₂ _ (by simp) ?_
      apply List.map_congr_left
      intro i _
      simp only [Function.comp_apply, List.take_succ_cons, List.foldl_cons]

/-- The requests an error-free watermark iteration issues: request `i`
carries exactly the sort clause plus the `pushed:>=` filter for the
watermark after the first `i` pages (no filter on the first request), one
request per processed page. -/
theorem iterLoop_pages_requests {α κ : Type} [DecidableEq κ] (key : α → κ)
    (pushedAt : α → DateTime) (q : String) (pages : List (PageG α)) :
    (iterLoop key pushedAt q (pages.map .ok) none []).requests =
      (List.range (processedPages pages).length).map
        (fun i => watermarkQuery q (specWatermark pushedAt pages i)) :=
  iterLoop_pages_requests_aux key pushedAt q pages none []

theorem iterLoop_yields_spec {α κ : Type} [DecidableEq κ] (key : α → κ)
    (pushedAt : α → DateTime) (q : String) :
    ∀ (resps : List (Except String (PageG α))) (since : Option DateTime)
      (seen : List κ),
      ((iterLoop key pushedAt q resps since seen).yields.map key).Nodup ∧
        ∀ a ∈ (iterLoop key pushedAt q resps since seen).yields, key a ∉ seen := by
  intro resps
  induction resps with
  | nil => intro since seen; simp [iterLoop]
  | cons resp rest ih =>
    intro since seen
    rcases resp with m | pg
    · simp only [iterLoop]
      split
      · exact ih since seen
      · simp
    · simp only [iterLoop]
      obtain ⟨hnd, hsub⟩ :=
        dedupStep_nodup key pg.nodes seen [] (by simp) (by simp)
      have hout := dedupStep_out_mem key pg.nodes seen []
      have hseen := dedupStep_seen_mem key pg.nodes seen []
      split
      · rename_i hnx
        obtain ⟨tnd, tnot⟩ := ih _ (dedupStep key seen [] pg.nodes).1
        constructor
        · simp only [List.map_append]
          refine List.Nodup.append hnd tnd ?_
          intro x hx hx'
          simp only [List.mem_map] at hx hx'
          obtain ⟨a, ha, rfl⟩ := hx
          obtain ⟨b, hb, hkb⟩ := hx'
          exact (hkb ▸ tnot b hb) (hsub a ha)
        · intro a ha
          rcases List.mem_append.mp ha with ha | ha
          · have : key a ∈ (dedupStep key seen [] pg.nodes).2.map key :=
              List.mem_map_of_mem _ ha
            rw [hout] at this
            simp only [List.map_nil, List.not_mem_nil, false_or] at this
            exact this.2
          · intro hcon
            exact tnot a ha ((hseen (key a)).mpr (Or.inl hcon))
      · constructor
        · simpa using hnd
        · intro a ha
          simp only at ha
          have : key a ∈ (dedupStep key seen [] pg.nodes).2.map key :=
            List.mem_map_of_mem _ ha
          rw [hout] at this
          simp only [List.map_nil, List.not_mem_nil, false_or] at this
          exact this.2

theorem iterLoop_pages_yield_mem {α κ : Type} [DecidableEq κ] (key : α → κ)
    (pushedAt : α → DateTime) (q : String) :
    ∀ (pages : List (PageG α)) (since : Option DateTime) (seen : List κ) (k : κ),
      (k ∈ (iterLoop key pushedAt q (pages.map .ok) since seen).yields.map key) ↔
        (k ∈ (processedNodes pages).map key ∧ k ∉ seen) := by
  intro pages
  induction pages with
  | nil => intro since seen k; simp [iterLoop, processedNodes, processedPages]
  | cons p rest ih =>
    intro since seen k
    simp only [List.map_cons, iterLoop]
    have hout := dedupStep_out_mem key p.nodes seen [] k
    simp only [List.map_nil, List.not_mem_nil, false_or] at hout
    have hseen := dedupStep_seen_mem key p.nodes seen [] k
    cases hnx : p.hasNextPage
    · rw [if_neg (by simp [hnx])]
      simp only
      rw [hout, processedNodes_cons, hnx]
      simp
    · rw [if_pos (by simp [hnx])]
      simp only [List.map_append, List.mem_append]
      rw [hout, ih _ ((dedupStep key seen [] p.nodes).1) k, hseen,
        processedNodes_cons, hnx]
      simp only [if_true, List.map_append, List.mem_append]
      tauto

/-- A run whose pages all promise a next page never stops: it consumes
every supplied response and is still looping (no non-progress guard). -/
theorem iterLoop_pages_allNext {α κ : Type} [DecidableEq κ] (key : α → κ)
    (pushedAt : α → DateTime) (q : String) :
    ∀ (pages : List (PageG α)) (since : Option DateTime) (seen : List κ),
      (∀ p ∈ pages, p.hasNextPage = true) →
      (iterLoop key pushedAt q (pages.map .ok) since seen).outcome = .exhausted ∧
        (iterLoop key pushedAt q (pages.map .ok) since seen).requests.length =
          pages.length := by
  intro pages
  induction pages with
  | nil => intro since seen _; simp [iterLoop]
  | cons p rest ih =>
    intro since seen hall
    have hp : p.hasNextPage = true := hall p (List.mem_cons_self p rest)
    simp only [List.map_cons, iterLoop]
    rw [if_pos (by simp [hp])]
    obtain ⟨h1, h2⟩ := ih
      (match p.nodes.getLast? with
       | some r => some (pushedAt r)
       | none => since)
      ((dedupStep key seen [] p.nodes).1)
      (fun x hx => hall x (List.mem_cons_of_mem p hx))
    refine ⟨h1, ?_⟩
    simp only [List.length_cons]
    omega

/-! ## Properties of the `part_001` window loop -/

theorem printBatch_value (f : Part001.Field) :
    ∀ (b : List Part001.Repository) (uniq : List String) (v0 : Int)
      (r : Part001.Repository), b.getLast? = some r →
      (Part001.printBatch f uniq v0 b).2.2 = f.value r := by
  intro b
  induction b with
  | nil => intro uniq v0 r h; simp at h
  | cons r0 rs ih =>
    intro uniq v0 r h
    cases rs with
    | nil =>
      simp only [List.getLast?_singleton, Option.some_inj] at h
      subst h
      simp only [Part001.printBatch]
      split <;> simp [Part001.printBatch]
    | cons r1 rs' =>
      rw [List.getLast?_cons_cons] at h
      simp only [Part001.printBatch]
      split
      · exact ih uniq (f.value r0) r h
      · exact ih (r0.NameWithOwner :: uniq) (f.value r0) r h

/-- The non-progress guard of `part_001`: a non-empty batch whose trailing
metric value equals the `lastValue` that formed the window stops the loop
after that batch. -/
theorem part001_noProgress (base : String) (f : Part001.Field)
    (batch : List Part001.Repository) (rest : List (List Part001.Repository))
    (lastValue : Int) (uniq : List String) (r : Part001.Repository)
    (hlast : batch.getLast? = some r) (hval : f.value r = lastValue) :
    Part001.mainLoop base f (batch :: rest) lastValue uniq =
      ⟨[Part001.windowQuery base f lastValue],
        (Part001.printBatch f uniq lastValue batch).1, 1, .noProgress⟩ := by
  have hne : batch.isEmpty = false := by
    cases batch
    · simp at hlast
    · rfl
  simp only [Part001.mainLoop, hne]
  rw [if_neg (by simp)]
  rw [if_pos (by rw [printBatch_value f batch uniq lastValue r hlast]; exact hval)]

/-! ## Properties of the retry wrappers -/

theorem firstOutcome_transient {α : Type} (tr : String → Bool) (m : String)
    (rest : List (AttemptG α)) (h : tr m = true) :
    firstOutcome tr (.err m :: rest) =
      ((firstOutcome tr rest).1 + 1, (firstOutcome tr rest).2) := by
  simp [firstOutcome, h]

theorem firstOutcome_fatal {α : Type} (tr : String → Bool) (m : String)
    (rest : List (AttemptG α)) (h : tr m = false) :
    firstOutcome tr (.err m :: rest) = (0, some (.error m)) := by
  simp [firstOutcome, h]

theorem firstOutcome_replicate {α : Type} (tr : String → Bool) (m : String)
    (h : tr m = true) :
    ∀ n : Nat, firstOutcome tr (List.replicate n (.err m) : List (AttemptG α)) =
      (n, none) := by
  intro n
  induction n with
  | zero => simp [firstOutcome]
  | succ n ih => simp [List.replicate_succ, firstOutcome, h, ih]

theorem iterLoop_fatal_step {α κ : Type} [DecidableEq κ] (key : α → κ)
    (pushedAt : α → DateTime) (q m : String)
    (rest : List (Except String (PageG α))) (since : Option DateTime)
    (seen : List κ) (h : transientIter m = false) :
    iterLoop key pushedAt q (.error m :: rest) since seen =
      ⟨[watermarkQuery q since], [], some m, 0, .fatal⟩ := by
  simp [iterLoop, h]

theorem iterLoop_transient_step {α κ : Type} [DecidableEq κ] (key : α → κ)
    (pushedAt : α → DateTime) (q m : String)
    (rest : List (Except String (PageG α))) (since : Option DateTime)
    (seen : List κ) (h : transientIter m = true) :
    iterLoop key pushedAt q (.error m :: rest) since seen =
      ⟨watermarkQuery q since ::
          (iterLoop key pushedAt q rest since seen).requests,
        (iterLoop key pushedAt q rest since seen).yields,
        (iterLoop key pushedAt q rest since seen).err,
        (iterLoop key pushedAt q rest since seen).sleepSeconds + 10,
        (iterLoop key pushedAt q rest since seen).outcome⟩ := by
  simp [iterLoop, h]

/-! ## Properties of timestamp rendering -/

theorem formatTimeZ_ne (t : DateTime) : formatTimeZ t ≠ "" := by
  intro h
  have h0 : (formatTimeZ t).length = 0 := by rw [h]; rfl
  unfold formatTimeZ at h0
  simp only [String.length_append] at h0
  have hz : ("Z" : String).length = 1 := rfl
  omega

theorem csvDateTime_empty_iff (dt : DateTime) :
    (MainGo.csvDateTime dt = "") ↔ dt.IsZero = true := by
  unfold MainGo.csvDateTime
  split
  · rename_i h
    simp [h]
  · rename_i h
    simp [formatTimeZ_ne dt, h]

/-! ## The claims -/

/-- C1: for every query and every sequence of page responses, one
exhaustive-search iteration never yields two records with the same
deduplication key — in the offset-strategy `Search` (keyed by
`DatabaseId`), in `part_003`'s `IterSearch` (keyed by `DatabaseId`) and in
the second `main.go` program's `IterSearch` (keyed by `NameWithOwner`) —
and, against an error-free server, a key is yielded (exactly once, by the
above) precisely when it occurs among the processed pages' nodes: fresh
entities are yielded, already-seen ones are skipped. -/
theorem C1_unique_yields :
    (∀ (tr : String → Bool) (server : Nat → List (AttemptG MainGo.Repository)),
      ((Search tr server).repos.map (fun r => r.DatabaseId)).Nodup) ∧
    (∀ (q : String) (resps : List (Except String (PageG MainGo.Repository))),
      ((Part003.IterSearch q resps).yields.map (fun r => r.DatabaseId)).Nodup) ∧
    (∀ (q : String) (resps : List (Except String (PageG MainGo2.Repository))),
      ((MainGo2.IterSearch q resps).yields.map (fun r => r.NameWithOwner)).Nodup) ∧
    (∀ (q : String) (pages : List (PageG MainGo.Repository)) (k : Int),
      (k ∈ (Part003.IterPages q pages).yields.map (fun r => r.DatabaseId)) ↔
        k ∈ (processedNodes pages).map (fun r => r.DatabaseId)) := by
  refine ⟨?_, ?_, ?_, ?_⟩
  · intro tr server
    exact search_repos_nodup tr server
  · intro q resps
    exact (iterLoop_yields_spec _ _ q resps none []).1
  · intro q resps
    exact (iterLoop_yields_spec _ _ q resps none []).1
  · intro q pages k
    unfold Part003.IterPages Part003.IterSearch
    rw [iterLoop_pages_yield_mem]
    simp

/-- C2: against an all-successful server, the overlapping-offset `Search`
issues exactly the spec-described requests — offsets 0, 91, 182, …
strictly below 1000, stopping right after the first page that reports no
next page — with no cursor at offset 0 and the base64 `cursor:<offset>`
token at every positive offset (the classifier argument covers both the
`main.go` and the `part_002` copy of the function). -/
theorem C2_offset_requests (tr : String → Bool)
    (pages : Nat → PageG MainGo.Repository) :
    (SearchPages tr pages).requests = specOffsetRequests pages ∧
      specStopCount pages ≤ 11 ∧
      cursorFor 0 = none ∧
      (∀ k : Nat, cursorFor (91 * (k + 1)) =
        some (goBase64 ("cursor:" ++ Nat.repr (91 * (k + 1))))) := by
  refine ⟨searchPages_requests tr pages, ?_, rfl, ?_⟩
  · unfold specStopCount
    have hle : ((List.range 10).takeWhile
        (fun k => (pages k).hasNextPage)).length ≤ 10 := by
      calc ((List.range 10).takeWhile (fun k => (pages k).hasNextPage)).length
          ≤ (List.range 10).length := (List.takeWhile_sublist _).length_le
        _ = 10 := by simp
    omega
  · intro k
    unfold cursorFor
    rw [if_pos (by omega)]

/-- C10: the offset walk is bounded: whatever the pages report, an
all-successful run issues at most 11 page requests, and the requested
offsets are exactly 91·k for consecutive k — so `Search` terminates after
a bounded number of successful pages even if every page claims more. -/
theorem C10_bounded_requests (tr : String → Bool)
    (pages : Nat → PageG MainGo.Repository) :
    (SearchPages tr pages).requests.length ≤ 11 ∧
      (SearchPages tr pages).requests.map (fun r => r.offset) =
        (List.range (SearchPages tr pages).requests.length).map
          (fun k => 91 * k) := by
  constructor
  · exact searchLoop_requests_len tr (pagesServer pages) 11 0 [] []
  · rw [searchPages_requests tr pages]
    unfold specOffsetRequests
    rw [List.map_map, List.length_map, List.length_range]
    rfl

/-- C3: the watermark strategy appends `" sort:updated-asc"` to the query,
issues the first request with no timestamp filter, and issues request
`i+1` with the inclusive filter `" pushed:>=" ++ <watermark>` where the
watermark is the push timestamp of the last entity of the last non-empty
page among the first `i+1` pages; it makes one request per processed page,
stopping at the first page that signals no next page (both in `part_003`
and in the second `main.go` program). -/
theorem C3_watermark_requests :
    (∀ (q : String) (pages : List (PageG MainGo.Repository)),
      (Part003.IterPages q pages).requests =
        (List.range (processedPages pages).length).map
          (fun i => watermarkQuery q
            (specWatermark (fun r => r.PushedAt) pages i))) ∧
    (∀ (q : String) (pages : List (PageG MainGo2.Repository)),
      (MainGo2.IterPages q pages).requests =
        (List.range (processedPages pages).length).map
          (fun i => watermarkQuery q
            (specWatermark (fun r => r.PushedAt) pages i))) ∧
    (∀ (s : String) (t : DateTime), watermarkQuery s (some t) =
      s ++ " sort:updated-asc" ++ (" pushed:>=" ++ formatTimeZ t)) ∧
    (∀ s : String, watermarkQuery s none = s ++ " sort:updated-asc") ∧
    (∀ (pages : List (PageG MainGo.Repository)),
      specWatermark (fun r => r.PushedAt) pages 0 = none) := by
  refine ⟨?_, ?_, ?_, ?_, ?_⟩
  · intro q pages
    exact iterLoop_pages_requests _ _ q pages
  · intro q pages
    exact iterLoop_pages_requests _ _ q pages
  · intro s t
    rfl
  · intro s
    simp [watermarkQuery]
  · intro pages
    rfl

/-- C4 counterexample: the claim says every retry wrapper treats a 504
gateway timeout as transient (sleep and retry).  The message
`"504 Gateway Timeout"` is indeed one of the three spec classes (the
offset-walk classifier retries it), but `part_003`'s `IterSearch` wrapper
classifies it fatal: it propagates the error immediately, with zero
sleeps, after a single request. -/
theorem C4_counterexample :
    transientMain "504 Gateway Timeout" = true ∧
      transientIter "504 Gateway Timeout" = false ∧
      (Part003.IterSearch "q" [.error "504 Gateway Timeout"]).outcome =
        .fatal ∧
      (Part003.IterSearch "q" [.error "504 Gateway Timeout"]).err =
        some "504 Gateway Timeout" ∧
      (Part003.IterSearch "q" [.error "504 Gateway Timeout"]).sleepSeconds = 0 ∧
      (Part003.IterSearch "q" [.error "504 Gateway Timeout"]).requests.length =
        1 := by
  refine ⟨by decide, by decide, ?_, ?_, ?_, ?_⟩ <;> rfl

/-- C4 (amended): the offset-walk `Search` wrappers classify an error as
transient exactly when it contains the secondary-rate-limit, the generic
"Something went wrong", or the 504-gateway-timeout message, while the
watermark `IterSearch` wrappers retry only the secondary-rate-limit
message; a transient error adds one 10-second sleep and re-runs the
identical request with no retry bound (n consecutive transient errors are
all consumed), and every other error resolves the request immediately with
that error, aborting the iteration. -/
theorem C4_retry_classification :
    (∀ m : String, transientMain m =
      (goContains m "You have exceeded a secondary rate limit" ||
        goContains m "Something went wrong while executing your query" ||
        goContains m "504 Gateway Timeout")) ∧
    (∀ m : String, transientPart002 m =
      (goContains m "You have exceeded a secondary rate limit." ||
        goContains m "Something went wrong while executing your query." ||
        goContains m "504 Gateway Timeout")) ∧
    (∀ m : String, transientIter m =
      goContains m "You have exceeded a secondary rate limit.") ∧
    (∀ (tr : String → Bool) (m : String)
      (rest : List (AttemptG MainGo.Repository)), tr m = true →
      firstOutcome tr (.err m :: rest) =
        ((firstOutcome tr rest).1 + 1, (firstOutcome tr rest).2)) ∧
    (∀ (tr : String → Bool) (m : String)
      (rest : List (AttemptG MainGo.Repository)), tr m = false →
      firstOutcome tr (.err m :: rest) = (0, some (.error m))) ∧
    (∀ (tr : String → Bool) (m : String), tr m = true → ∀ n : Nat,
      firstOutcome tr (List.replicate n (.err m) :
        List (AttemptG MainGo.Repository)) = (n, none)) ∧
    (∀ (q m : String) (rest : List (Except String (PageG MainGo.Repository)))
      (since : Option DateTime) (seen : List Int), transientIter m = false →
      iterLoop (fun r => r.DatabaseId) (fun r => r.PushedAt) q
          (.error m :: rest) since seen =
        ⟨[watermarkQuery q since], [], some m, 0, .fatal⟩) ∧
    (∀ (q m : String) (rest : List (Except String (PageG MainGo.Repository)))
      (since : Option DateTime) (seen : List Int), transientIter m = true →
      iterLoop (fun r => r.DatabaseId) (fun r => r.PushedAt) q
          (.error m :: rest) since seen =
        ⟨watermarkQuery q since ::
            (iterLoop (fun r => r.DatabaseId) (fun r => r.PushedAt) q rest
              since seen).requests,
          (iterLoop (fun r => r.DatabaseId) (fun r => r.PushedAt) q rest
            since seen).yields,
          (iterLoop (fun r => r.DatabaseId) (fun r => r.PushedAt) q rest
            since seen).err,
          (iterLoop (fun r => r.DatabaseId) (fun r => r.PushedAt) q rest
            since seen).sleepSeconds + 10,
          (iterLoop (fun r => r.DatabaseId) (fun r => r.PushedAt) q rest
            since seen).outcome⟩) := by
  refine ⟨fun _ => rfl, fun _ => rfl, fun _ => rfl, ?_, ?_, ?_, ?_, ?_⟩
  · intro tr m rest h
    exact firstOutcome_transient tr m rest h
  · intro tr m rest h
    exact firstOutcome_fatal tr m rest h
  · intro tr m h n
    exact firstOutcome_replicate tr m h n
  · intro q m rest since seen h
    exact iterLoop_fatal_step _ _ q m rest since seen h
  · intro q m rest since seen h
    exact iterLoop_transient_step _ _ q m rest since seen h

/-- C4 witness: the amended classification applied at concrete inputs — a
504 timeout is transient for the offset walk (one sleep, then the page is
taken), while a bad-credentials error is fatal for the watermark wrapper. -/
theorem C4_witness :
    firstOutcome transientMain
        (.err "504 Gateway Timeout" ::
          ([.page ⟨[], false⟩] : List (AttemptG MainGo.Repository))) =
      ((firstOutcome transientMain
          ([.page ⟨[], false⟩] : List (AttemptG MainGo.Repository))).1 + 1,
        (firstOutcome transientMain
          ([.page ⟨[], false⟩] : List (AttemptG MainGo.Repository))).2) ∧
      iterLoop (fun r : MainGo.Repository => r.DatabaseId) (fun r => r.PushedAt)
          "q" [.error "Bad credentials"] none [] =
        ⟨[watermarkQuery "q" none], [], some "Bad credentials", 0, .fatal⟩ :=
  ⟨C4_retry_classification.2.2.2.1 transientMain "504 Gateway Timeout"
      [.page ⟨[], false⟩] (by decide),
    C4_retry_classification.2.2.2.2.2.2.1 "q" "Bad credentials" [] none []
      (by decide)⟩

/-- A repository fixture whose page keeps promising further results. -/
def c5Repo : MainGo.Repository :=
  ⟨zeroDateTime, zeroDateTime, 1, 0, 0, "o/r", ⟨2024, 1, 1, 0, 0, 0⟩, 0,
    zeroDateTime⟩

/-- A page with one repository that reports a next page. -/
def c5Page : PageG MainGo.Repository := ⟨[c5Repo], true⟩

/-- C5 counterexample: the claim says every exhaustive-search iteration
stops when the boundary value of the next window repeats.  In `part_003`'s
`IterSearch`, serving the identical non-final page three times makes the
watermark repeat (requests 2 and 3 are character-for-character identical),
yet the loop issues all three requests and is still running — there is no
non-progress guard. -/
theorem C5_counterexample :
    (Part003.IterPages "q" [c5Page, c5Page, c5Page]).requests.length = 3 ∧
      (Part003.IterPages "q" [c5Page, c5Page, c5Page]).requests.get? 1 =
        (Part003.IterPages "q" [c5Page, c5Page, c5Page]).requests.get? 2 ∧
      (Part003.IterPages "q" [c5Page, c5Page, c5Page]).requests.get? 2 =
        some (watermarkQuery "q" (some ⟨2024, 1, 1, 0, 0, 0⟩)) ∧
      (Part003.IterPages "q" [c5Page, c5Page, c5Page]).outcome = .exhausted :=
  ⟨rfl, rfl, rfl, rfl⟩

/-- C5 (amended): only the metric-windowing variant (`part_001`) guards
against non-progress — a non-empty batch whose trailing metric value
equals the window's `lastValue` ends the loop after that batch with no
further queries; the watermark `IterSearch` of `part_003` has no such
guard: as long as pages report a next page it issues one request per page
and keeps going, even when the watermark repeats. -/
theorem C5_nonprogress :
    (∀ (base : String) (f : Part001.Field) (batch : List Part001.Repository)
        (rest : List (List Part001.Repository)) (lastValue : Int)
        (uniq : List String) (r : Part001.Repository),
      batch.getLast? = some r → f.value r = lastValue →
      (Part001.mainLoop base f (batch :: rest) lastValue uniq).batchesUsed = 1 ∧
        (Part001.mainLoop base f (batch :: rest) lastValue uniq).outcome =
          .noProgress) ∧
    (∀ (q : String) (pages : List (PageG MainGo.Repository)),
      (∀ p ∈ pages, p.hasNextPage = true) →
      (Part003.IterPages q pages).outcome = .exhausted ∧
        (Part003.IterPages q pages).requests.length = pages.length) := by
  constructor
  · intro base f batch rest lastValue uniq r h1 h2
    rw [part001_noProgress base f batch rest lastValue uniq r h1 h2]
    exact ⟨rfl, rfl⟩
  · intro q pages hall
    exact iterLoop_pages_allNext _ _ q pages none [] hall

/-- C5 witness: both amended guarantees at concrete inputs — a singleton
batch whose star count equals the current `lastValue` stops `part_001`
after one batch, and two always-next pages leave `part_003` still
looping after two requests. -/
theorem C5_witness :
    ((Part001.mainLoop "" .stars [[⟨"o/r", 5, 1, 2⟩]] 5 []).batchesUsed = 1 ∧
      (Part001.mainLoop "" .stars [[⟨"o/r", 5, 1, 2⟩]] 5 []).outcome =
        .noProgress) ∧
      ((Part003.IterPages "q" [c5Page, c5Page]).outcome = .exhausted ∧
        (Part003.IterPages "q" [c5Page, c5Page]).requests.length = 2) :=
  ⟨C5_nonprogress.1 "" .stars [⟨"o/r", 5, 1, 2⟩] [] 5 [] ⟨"o/r", 5, 1, 2⟩ rfl
      (by decide),
    C5_nonprogress.2 "q" [c5Page, c5Page] (by decide)⟩

/-- C6: in the watermark strategy the inclusive `pushed:>=` re-request may
return the boundary entity again and distinct entities tied at the exact
boundary timestamp; every processed entity's identifier is yielded exactly
once — the re-occurring boundary entity is discarded by the seen-set while
distinct entities sharing that exact push timestamp are each yielded. -/
theorem C6_boundary_dedup (q : String)
    (pages : List (PageG MainGo.Repository)) :
    (∀ r ∈ processedNodes pages,
      ((Part003.IterPages q pages).yields.map
          (fun x => x.DatabaseId)).count r.DatabaseId = 1) ∧
    (∀ r1 r2 : MainGo.Repository, r1 ∈ processedNodes pages →
      r2 ∈ processedNodes pages → r1.PushedAt = r2.PushedAt →
      r1.DatabaseId ≠ r2.DatabaseId →
      r1.DatabaseId ∈
          (Part003.IterPages q pages).yields.map (fun x => x.DatabaseId) ∧
        r2.DatabaseId ∈
          (Part003.IterPages q pages).yields.map (fun x => x.DatabaseId)) := by
  have hnd : ((Part003.IterPages q pages).yields.map
      (fun x => x.DatabaseId)).Nodup :=
    (iterLoop_yields_spec (fun r : MainGo.Repository => r.DatabaseId)
      (fun r => r.PushedAt) q (pages.map .ok) none []).1
  have hmem : ∀ r : MainGo.Repository, r ∈ processedNodes pages →
      r.DatabaseId ∈
        (Part003.IterPages q pages).yields.map (fun x => x.DatabaseId) := by
    intro r hr
    unfold Part003.IterPages Part003.IterSearch
    rw [iterLoop_pages_yield_mem]
    exact ⟨List.mem_map_of_mem _ hr, by simp⟩
  constructor
  · intro r hr
    exact List.count_eq_one_of_mem hnd (hmem r hr)
  · intro r1 r2 h1 h2 _ _
    exact ⟨hmem r1 h1, hmem r2 h2⟩

/-- Boundary fixtures for the C6 witness: `c6B` ends page one and
re-occurs at the start of page two; `c6C` shares its exact push
timestamp. -/
def c6A : MainGo.Repository :=
  ⟨zeroDateTime, zeroDateTime, 1, 0, 0, "o/a", ⟨2024, 1, 1, 0, 0, 0⟩, 0,
    zeroDateTime⟩

/-- The boundary entity: last of page one, first of page two. -/
def c6B : MainGo.Repository :=
  ⟨zeroDateTime, zeroDateTime, 2, 0, 0, "o/b", ⟨2024, 1, 2, 0, 0, 0⟩, 0,
    zeroDateTime⟩

/-- A distinct entity tied with `c6B` at the exact boundary timestamp. -/
def c6C : MainGo.Repository :=
  ⟨zeroDateTime, zeroDateTime, 3, 0, 0, "o/c", ⟨2024, 1, 2, 0, 0, 0⟩, 0,
    zeroDateTime⟩

/-- The two overlapping pages of the C6 witness. -/
def c6Pages : List (PageG MainGo.Repository) :=
  [⟨[c6A, c6B], true⟩, ⟨[c6B, c6C], false⟩]

/-- C6 witness: on the overlapping fixture the boundary entity is counted
once and both timestamp-tied entities appear. -/
theorem C6_witness :
    ((Part003.IterPages "q" c6Pages).yields.map
        (fun x => x.DatabaseId)).count 2 = 1 ∧
      ((2 : Int) ∈ (Part003.IterPages "q" c6Pages).yields.map
          (fun x => x.DatabaseId) ∧
        (3 : Int) ∈ (Part003.IterPages "q" c6Pages).yields.map
          (fun x => x.DatabaseId)) :=
  ⟨(C6_boundary_dedup "q" c6Pages).1 c6B (by decide),
    (C6_boundary_dedup "q" c6Pages).2 c6B c6C (by decide) (by decide) rfl
      (by decide)⟩

/-- C7: for every valid inclusive date range with start not after end, the
partitioners issue one sub-query per calendar day (`part_002`) and 24 —
one per hour — per day (`main.go`); the day walk is exactly the chain of
consecutive days from start to end; the `created:` filter intervals (in
absolute seconds) are gap-free and overlap-free — each starts one second
after the previous ends — and together cover exactly from the first day's
00:00:00 to the last day's 23:59:59; and each partition is an independent
`Search` invocation whose seen-set starts empty. -/
theorem C7_partitioner (base : String) (s e : Date)
    (hs : validDate s) (he : validDate e) (hse : dateAfter s e = false) :
    (Part002.dayQueries base s e).length = rataDie e + 1 - rataDie s ∧
      (MainGo.hourQueries base s e).length = 24 * (rataDie e + 1 - rataDie s) ∧
      (dayRange s e).head? = some s ∧
      (dayRange s e).getLast? = some e ∧
      List.Chain' (fun a b => b = succDate a) (dayRange s e) ∧
      (∀ d ∈ dayRange s e, validDate d) ∧
      List.Chain' (fun iv jv => jv.1 = iv.2 + 1) (MainGo.hourIntervals s e) ∧
      (MainGo.hourIntervals s e).head?.map Prod.fst =
        some (86400 * rataDie s) ∧
      (MainGo.hourIntervals s e).getLast?.map Prod.snd =
        some (86400 * rataDie e + 86399) ∧
      List.Chain' (fun iv jv => jv.1 = iv.2 + 1) (Part002.dayIntervals s e) ∧
      (Part002.dayIntervals s e).head?.map Prod.fst =
        some (86400 * rataDie s) ∧
      (Part002.dayIntervals s e).getLast?.map Prod.snd =
        some (86400 * rataDie e + 86399) ∧
      (∀ server : String → Nat → PageG MainGo.Repository,
        MainGo.mainRows base server s e =
          (MainGo.hourQueries base s e).flatMap
            (fun qq => (MainGo.searchRepos (server qq)).map MainGo.csvRow)) ∧
      (∀ pages : Nat → PageG MainGo.Repository,
        MainGo.searchRepos pages =
          (searchLoop transientMain (pagesServer pages) 11 0 [] []).repos) := by
  obtain ⟨hne, hhead, hlast, hvalid, hchain, hlen, hrdle⟩ := dayRange_spec hs he hse
  have hflat := flatBlocks_spec hourBlock hourBlock_ne_nil hourBlock_chain
    hourBlock_head hourBlock_last (dayRange s e) hvalid hchain
  have hflatD := flatBlocks_spec dayBlock (fun d => by simp [dayBlock])
    (fun d => by simp [dayBlock])
    (fun d => by simp [dayBlock, Part002.dayInterval])
    (fun d => by simp [dayBlock, Part002.dayInterval])
    (dayRange s e) hvalid hchain
  refine ⟨?_, ?_, hhead, hlast, hchain, hvalid, ?_, ?_, ?_, ?_, ?_, ?_, ?_, ?_⟩
  · unfold Part002.dayQueries
    rw [List.length_map, hlen]
  · unfold MainGo.hourQueries MainGo.hourParts
    rw [List.length_map, length_flat24 (fun d h => (d, h)) (dayRange s e), hlen]
  · rw [hourIntervals_eq_flat]
    exact hflat.1
  · rw [hourIntervals_eq_flat, hflat.2.1, hhead]
    rfl
  · rw [hourIntervals_eq_flat, hflat.2.2, hlast]
    rfl
  · rw [dayIntervals_eq_flat]
    exact hflatD.1
  · rw [dayIntervals_eq_flat, hflatD.2.1, hhead]
    rfl
  · rw [dayIntervals_eq_flat, hflatD.2.2, hlast]
    rfl
  · intro server
    unfold MainGo.mainRows MainGo.hourQueries MainGo.hourParts
    rw [List.flatMap_map, List.flatMap_assoc]
    refine List.flatMap_congr ?_
    intro d _
    rw [List.flatMap_map]
  · intro pages
    rfl

/-- C7 witness: the partitioner guarantees applied across the 2024 leap
boundary, 2024-02-28 through 2024-03-01 (three days). -/
theorem C7_witness :
    (Part002.dayQueries "stars:>=10" ⟨2024, 2, 28⟩ ⟨2024, 3, 1⟩).length =
      rataDie ⟨2024, 3, 1⟩ + 1 - rataDie ⟨2024, 2, 28⟩ ∧
      (dayRange ⟨2024, 2, 28⟩ ⟨2024, 3, 1⟩).getLast? = some ⟨2024, 3, 1⟩ :=
  ⟨(C7_partitioner "stars:>=10" ⟨2024, 2, 28⟩ ⟨2024, 3, 1⟩ (by decide)
      (by decide) (by decide)).1,
    (C7_partitioner "stars:>=10" ⟨2024, 2, 28⟩ ⟨2024, 3, 1⟩ (by decide)
      (by decide) (by decide)).2.2.2.1⟩

theorem searchLoop_one_page (tr : String → Bool)
    (server : Nat → List (AttemptG MainGo.Repository)) (n k : Nat)
    (seen : List Int) (acc : List MainGo.Repository)
    (pg : PageG MainGo.Repository)
    (h : firstOutcome tr (server k) = (0, some (.ok pg)))
    (hnx : pg.hasNextPage = false) :
    searchLoop tr server (n + 1) k seen acc =
      ⟨[⟨91 * k, cursorFor (91 * k)⟩], 0,
        (dedupStep (fun r => r.DatabaseId) seen acc pg.nodes).2, .ok⟩ := by
  simp only [searchLoop, h, Nat.mul_zero]
  rw [if_neg (by simp [hnx])]

theorem dedupStep_pair {α κ : Type} [DecidableEq κ] (key : α → κ) (a b : α) :
    (dedupStep key [] [] [a, b]).2 = if key b = key a then [a] else [a, b] := by
  by_cases h : key b = key a <;> simp [dedupStep, h]

/-- C8: whenever the record type carries the integer identifier, the
deduplication key is that identifier and never the display path: two
records with equal identifiers collapse to one yielded record whatever
their `NameWithOwner` values are, and two records with distinct
identifiers are both yielded even if their `NameWithOwner` values
coincide — in `part_003`'s `IterSearch` and in the offset-walk `Search`
alike. -/
theorem C8_identifier_key (q : String) (a b : MainGo.Repository) :
    (a.DatabaseId = b.DatabaseId →
      (Part003.IterPages q [⟨[a, b], false⟩]).yields = [a] ∧
        (SearchPages transientMain (fun _ => ⟨[a, b], false⟩)).repos = [a]) ∧
      (a.DatabaseId ≠ b.DatabaseId →
        (Part003.IterPages q [⟨[a, b], false⟩]).yields = [a, b] ∧
          (SearchPages transientMain (fun _ => ⟨[a, b], false⟩)).repos =
            [a, b]) := by
  have hiter : (Part003.IterPages q [⟨[a, b], false⟩]).yields =
      (dedupStep (fun r : MainGo.Repository => r.DatabaseId) [] [] [a, b]).2 := by
    unfold Part003.IterPages Part003.IterSearch
    simp only [List.map_cons, List.map_nil, iterLoop]
    rw [if_neg (by simp)]
  have hstep : searchLoop transientMain
      (pagesServer (fun _ => ⟨[a, b], false⟩)) (10 + 1) 0 [] [] =
      ⟨[⟨91 * 0, cursorFor (91 * 0)⟩], 0,
        (dedupStep (fun r : MainGo.Repository => r.DatabaseId) [] []
          [a, b]).2, .ok⟩ :=
    searchLoop_one_page transientMain _ 10 0 [] [] ⟨[a, b], false⟩ rfl rfl
  have hsearch : (SearchPages transientMain (fun _ => ⟨[a, b], false⟩)).repos =
      (dedupStep (fun r : MainGo.Repository => r.DatabaseId) [] [] [a, b]).2 :=
    congrArg SearchTrace.repos hstep
  rw [hiter, hsearch, dedupStep_pair]
  constructor
  · intro h
    rw [if_pos h.symm]
    exact ⟨rfl, rfl⟩
  · intro h
    rw [if_neg (fun hc => h hc.symm)]
    exact ⟨rfl, rfl⟩

/-- C8 witness: two records sharing the display path `"o/r"` but with
distinct identifiers are both yielded — the key is the identifier, not
the path. -/
theorem C8_witness :
    (Part003.IterPages "q"
        [⟨[⟨zeroDateTime, zeroDateTime, 1, 0, 0, "o/r", zeroDateTime, 0,
              zeroDateTime⟩,
            ⟨zeroDateTime, zeroDateTime, 2, 0, 0, "o/r", zeroDateTime, 0,
              zeroDateTime⟩], false⟩]).yields =
      [⟨zeroDateTime, zeroDateTime, 1, 0, 0, "o/r", zeroDateTime, 0,
          zeroDateTime⟩,
        ⟨zeroDateTime, zeroDateTime, 2, 0, 0, "o/r", zeroDateTime, 0,
          zeroDateTime⟩] ∧
      (SearchPages transientMain
          (fun _ =>
            ⟨[⟨zeroDateTime, zeroDateTime, 1, 0, 0, "o/r", zeroDateTime, 0,
                  zeroDateTime⟩,
                ⟨zeroDateTime, zeroDateTime, 2, 0, 0, "o/r", zeroDateTime, 0,
                  zeroDateTime⟩], false⟩)).repos =
        [⟨zeroDateTime, zeroDateTime, 1, 0, 0, "o/r", zeroDateTime, 0,
            zeroDateTime⟩,
          ⟨zeroDateTime, zeroDateTime, 2, 0, 0, "o/r", zeroDateTime, 0,
            zeroDateTime⟩] :=
  (C8_identifier_key "q"
      ⟨zeroDateTime, zeroDateTime, 1, 0, 0, "o/r", zeroDateTime, 0,
        zeroDateTime⟩
      ⟨zeroDateTime, zeroDateTime, 2, 0, 0, "o/r", zeroDateTime, 0,
        zeroDateTime⟩).2 (by decide)

/-- C9 counterexample: the claim says every emitted record has ten fields
with zero timestamps rendered as the empty string.  The second `main.go`
program's writer emits four fields, does not split `NameWithOwner`, and
renders a zero `CreatedAt` as `"0001-01-01T00:00:00Z"` rather than `""`. -/
theorem C9_counterexample :
    (MainGo2.csvRow ⟨"o/r", zeroDateTime, zeroDateTime, 5⟩).length = 4 ∧
      (⟨"o/r", zeroDateTime, zeroDateTime, 5⟩ :
          MainGo2.Repository).CreatedAt.IsZero = true ∧
      (MainGo2.csvRow ⟨"o/r", zeroDateTime, zeroDateTime, 5⟩).get? 2 =
        some "0001-01-01T00:00:00Z" ∧
      ("0001-01-01T00:00:00Z" : String) ≠ "" := by
  refine ⟨rfl, rfl, by decide, by decide⟩

/-- C9 (amended): the 10-field writers (`main.go` first program,
`part_002`, `part_003`) emit, in order, owner and name from
`strings.Cut(NameWithOwner, "/")`, identifier, stars, forks, size, then
the four timestamps, each rendered RFC3339 exactly when non-zero and as
the empty string exactly when zero; the second `main.go` program instead
emits the four fields `NameWithOwner`, stars, created, pushed, formatting
both timestamps unconditionally (zero times included). -/
theorem C9_row_format :
    (∀ r : MainGo.Repository, MainGo.csvRow r =
      [(goCut r.NameWithOwner "/").1, (goCut r.NameWithOwner "/").2.1,
        Int.repr r.DatabaseId, Int.repr r.StargazerCount,
        Int.repr r.ForkCount, Int.repr r.DiskUsage,
        MainGo.csvDateTime r.CreatedAt, MainGo.csvDateTime r.UpdatedAt,
        MainGo.csvDateTime r.PushedAt, MainGo.csvDateTime r.ArchivedAt]) ∧
      (∀ dt : DateTime, (MainGo.csvDateTime dt = "") ↔ dt.IsZero = true) ∧
      (∀ dt : DateTime, dt.IsZero = false →
        MainGo.csvDateTime dt = formatTimeZ dt) ∧
      (∀ r : MainGo2.Repository, MainGo2.csvRow r =
        [r.NameWithOwner, Int.repr r.StargazerCount,
          formatTimeZ r.CreatedAt, formatTimeZ r.PushedAt]) := by
  refine ⟨fun _ => rfl, csvDateTime_empty_iff, ?_, fun _ => rfl⟩
  intro dt h
  simp [MainGo.csvDateTime, h]

/-- C9 witness: a non-zero timestamp renders RFC3339 in the 10-field rows. -/
theorem C9_witness :
    MainGo.csvDateTime ⟨2024, 1, 2, 3, 4, 5⟩ =
      formatTimeZ ⟨2024, 1, 2, 3, 4, 5⟩ :=
  C9_row_format.2.2.1 ⟨2024, 1, 2, 3, 4, 5⟩ (by decide)
